import Mathlib

/-!
Shallow embedding of the generic handle-indexed container `slot_map` from
`src/slot_map.hpp` (template `slot_map<T, Token, Container>`, instantiated at
`T = Nat`, `Token = std::pair<unsigned, unsigned>`, `Container = std::vector`).

Modelling conventions:

* A C++ `std::vector` is a Lean `List` together with an explicit capacity
  counter in the state (`slotsCap` for `m_slots`, `dataCap` for `m_data`).
  `reserve n` raises the capacity to `max cap n` and never moves elements;
  `clear` empties the list and keeps the capacity; `push_back` appends;
  `pop_back` is `take (length - 1)`; `back()` is indexing at `length - 1`.
* Every indexed read or write of a vector is guarded: an out-of-bounds
  access, which is undefined behaviour in C++, makes the operation return
  `none`.  All operations therefore have type `... → Option ...`.
* Machine integers: `size_type` and `key_size_type` are `unsigned` (32 bit).
  The only arithmetic in the source that can overflow for realistically
  reachable values is the geometric capacity computation in `grow`, which the
  source itself guards; that computation is modelled with an explicit
  `% 2 ^ 32`.  Indices and sizes are otherwise far below `2 ^ 32` and are
  modelled as plain `Nat`.  The per-slot generation counter is modelled as a
  plain `Nat`: the specification explicitly leaves generation-counter
  overflow out of scope.
* `assert(...)` compiles to nothing in release builds and is modelled as a
  no-op (the conditions asserted by the source are discussed in the theorems
  below where relevant).
* `at` throwing `std::range_error` is modelled as the result `AtResult.notFound`;
  returning a reference to a live value is `AtResult.found v`; an unchecked
  out-of-bounds dereference of the dense store inside `find_unchecked` is
  `AtResult.oob`.
-/

/-- In-place update of one list element; positions past the end are left
unchanged (callers guard bounds separately, mirroring the C++ UB checks). -/
def updAt {α : Type} (l : List α) (i : Nat) (f : α → α) : List α :=
  match l, i with
  | [], _ => []
  | a :: t, 0 => f a :: t
  | a :: t, i + 1 => a :: updAt t i f

theorem updAt_length {α : Type} (l : List α) (i : Nat) (f : α → α) :
    (updAt l i f).length = l.length := by
  induction l generalizing i with
  | nil => rfl
  | cons a t ih =>
    cases i with
    | zero => rfl
    | succ j => simp [updAt, ih]

theorem get?_updAt_self {α : Type} (l : List α) (i : Nat) (f : α → α) :
    (updAt l i f).get? i = (l.get? i).map f := by
  induction l generalizing i with
  | nil => cases i <;> rfl
  | cons a t ih =>
    cases i with
    | zero => rfl
    | succ j => simpa [updAt] using ih j

theorem get?_updAt_ne {α : Type} (l : List α) (i j : Nat) (f : α → α)
    (h : j ≠ i) : (updAt l i f).get? j = l.get? j := by
  induction l generalizing i j with
  | nil => cases j <;> rfl
  | cons a t ih =>
    cases i with
    | zero =>
      cases j with
      | zero => exact absurd rfl h
      | succ j' => rfl
    | succ i' =>
      cases j with
      | zero => rfl
      | succ j' =>
        simpa [updAt] using ih i' j' (fun hc => h (by simp [hc]))

theorem get?_some_lt {α : Type} {l : List α} {i : Nat} {a : α}
    (h : l.get? i = some a) : i < l.length := by
  induction l generalizing i with
  | nil => simp [List.get?] at h
  | cons b t ih =>
    cases i with
    | zero => simp
    | succ j =>
      have := ih (by simpa [List.get?] using h)
      simpa using Nat.succ_lt_succ this

theorem get?_append_left {α : Type} (l m : List α) (i : Nat)
    (h : i < l.length) : (l ++ m).get? i = l.get? i := by
  induction l generalizing i with
  | nil => simp at h
  | cons a t ih =>
    cases i with
    | zero => rfl
    | succ j =>
      have : j < t.length := by simpa using Nat.lt_of_succ_lt_succ h
      simpa [List.get?] using ih j this

theorem get?_append_last {α : Type} (l : List α) (a : α) :
    (l ++ [a]).get? l.length = some a := by
  induction l with
  | nil => rfl
  | cons b t ih => simp [List.get?, ih]

theorem get?_take_lt {α : Type} (l : List α) (k i : Nat) (h : i < k) :
    (l.take k).get? i = l.get? i := by
  induction l generalizing k i with
  | nil => simp
  | cons a t ih =>
    cases k with
    | zero => exact absurd h (Nat.not_lt_zero i)
    | succ k' =>
      cases i with
      | zero => rfl
      | succ i' =>
        simpa [List.get?] using ih k' i' (Nat.lt_of_succ_lt_succ h)

theorem contains_false_get? {l : List Nat} {a : Nat}
    (h : l.contains a = false) (p : Nat) : l.get? p ≠ some a := by
  induction l generalizing p with
  | nil => simp
  | cons b t ih =>
    simp only [List.contains_cons, Bool.or_eq_false_iff] at h
    cases p with
    | zero =>
      intro hc
      have hb : b = a := by simpa [List.get?] using hc
      have hba : (a == b) = false := h.1
      simp [hb] at hba
    | succ p' =>
      simpa [List.get?] using ih h.2 p'

/-- One slot of the slot table.  The source stores each slot as a whole
`key_type` (`std::pair<unsigned, unsigned>`): `payload` is the first field
(`key_index`: dense position when occupied, next-free link when free) and
`gen` the second (`key_generation`). -/
structure Slot where
  payload : Nat
  gen : Nat
deriving DecidableEq, Repr

/-- State of a `slot_map<Nat, std::pair<unsigned,unsigned>, std::vector>`:
the fields mirror `m_slots`, `m_data`, `m_erase_helper`, `m_free_head`,
`m_free_tail`, plus the capacities of the two vectors whose capacity the
source reads (`m_slots.capacity()` and `m_data.capacity()`). -/
structure SlotMap where
  slots : List Slot
  data : List Nat
  eraseHelper : List Nat
  freeHead : Nat
  freeTail : Nat
  slotsCap : Nat
  dataCap : Nat
deriving DecidableEq, Repr

/-- The default-constructed container: all vectors empty, head and tail 0. -/
def emptySM : SlotMap :=
  { slots := [], data := [], eraseHelper := [], freeHead := 0, freeTail := 0,
    slotsCap := 0, dataCap := 0 }

/-- Growth factor `growth_rate` from the source. -/
def growthRate : Nat := 2

/-- Initial allocation `initial_alloc_size` from the source. -/
def initialAlloc : Nat := 20

/-- Guarded write of a slot's `payload` field (`key_index(slots[i]) = p`). -/
def setSlotPayload (σ : SlotMap) (i p : Nat) : Option SlotMap :=
  if i < σ.slots.length then
    some { σ with slots := updAt σ.slots i (fun s => { s with payload := p }) }
  else none

/-- Guarded increment of a slot's generation (`++key_generation(slots[i])`). -/
def bumpGen (σ : SlotMap) (i : Nat) : Option SlotMap :=
  if i < σ.slots.length then
    some { σ with slots := updAt σ.slots i (fun s => { s with gen := s.gen + 1 }) }
  else none

/-- The geometric new-capacity computation at the top of `slot_map::grow`:
`auto new_capacity{ capacity() * growth_rate };` in 32-bit unsigned
arithmetic, the `capacity() == 0` initial case, and the overflow clamp
`if (new_capacity < capacity()) new_capacity = numeric_limits::max()`. -/
def growNewCapacity (cap : Nat) : Nat :=
  let nc0 := cap * growthRate % 2 ^ 32
  let nc1 := if cap = 0 then initialAlloc else nc0
  if nc1 < cap then 2 ^ 32 - 1 else nc1

/-- Model of `slot_map::grow_slots`: reserve `m_slots.capacity() * growth_rate`
(or `initial_alloc_size` from zero), emplace one new slot `(i + 1, 0)` for
each `i` in `[initial_size, capacity)`, self-link the last slot, and reset
`m_free_head` / `m_free_tail` to the new block. -/
def growSlots (σ : SlotMap) : Option SlotMap :=
  let initialSize := σ.slotsCap
  let requested := if initialSize ≠ 0 then initialSize * growthRate else initialAlloc
  let cap1 := max σ.slotsCap requested
  let slots1 := σ.slots ++
    (List.range' initialSize (cap1 - initialSize)).map (fun i => ⟨i + 1, 0⟩)
  if slots1.length = 0 then none  -- m_slots.back() on an empty vector is UB
  else
    let slots2 := updAt slots1 (slots1.length - 1)
      (fun s => { s with payload := slots1.length - 1 })
    some { σ with
             slots := slots2
             slotsCap := cap1
             freeHead := initialSize
             freeTail := slots1.length - 1 }

/-- Model of `slot_map::grow`: compute the clamped new capacity, `grow_slots()`, then
reserve the dense store and the erase helper. -/
def grow (σ : SlotMap) : Option SlotMap :=
  let nc := growNewCapacity σ.dataCap
  match growSlots σ with
  | none => none
  | some σ1 => some { σ1 with dataCap := max σ1.dataCap nc }

/-- Model of `slot_map::pop_head`: grow when the dense store is full, then pop the
free-list head (reading `slots[m_free_head]`, out of bounds is UB), with the
single-free-slot case leaving the head in place. -/
def popHead (σ : SlotMap) : Option (SlotMap × Nat) :=
  match (if σ.data.length = σ.dataCap then grow σ else some σ) with
  | none => none
  | some σ1 =>
    match σ1.slots.get? σ1.freeHead with
    | none => none
    | some sl =>
      if sl.payload = σ1.freeHead then
        some (σ1, σ1.freeHead)      -- assert(size == capacity) is a no-op
      else
        some ({ σ1 with freeHead := sl.payload }, σ1.freeHead)

/-- Model of `slot_map::push_tail`: link `tail_index` after the current tail, self-link
it, move the tail cursor, and increment the freed slot's generation. -/
def pushTail (σ : SlotMap) (tailIndex : Nat) : Option SlotMap :=
  match setSlotPayload σ σ.freeTail tailIndex with
  | none => none
  | some σ1 =>
    match setSlotPayload σ1 tailIndex tailIndex with
    | none => none
    | some σ2 => bumpGen { σ2 with freeTail := tailIndex } tailIndex

/-- Model of `slot_map::key_valid`: compares the key's generation with
`slots[key_index(key)]`'s generation.  The source performs no bounds check,
so an out-of-range index dereferences past the end of `m_slots` (UB). -/
def keyValid (σ : SlotMap) (k : Nat × Nat) : Option Bool :=
  match σ.slots.get? k.1 with
  | none => none
  | some sl => some (k.2 = sl.gen)

/-- Model of `slot_map::element_index`: `key_index(slots[key_index(key)])`. -/
def elementIndex (σ : SlotMap) (k : Nat × Nat) : Option Nat :=
  (σ.slots.get? k.1).map Slot.payload

/-- Result of `slot_map::at`. -/
inductive AtResult where
  | notFound
  | found (v : Nat)
  | oob
deriving DecidableEq, Repr

/-- Model of `slot_map::at` (const overload): throw (`notFound`) when the index is out
of range of the slot table or the generation differs, otherwise return
`find_unchecked(key) = m_data[element_index(key)]`, whose unchecked dense
read can itself go out of bounds (`oob`). -/
def atKey (σ : SlotMap) (k : Nat × Nat) : AtResult :=
  match σ.slots.get? k.1 with
  | none => .notFound
  | some sl =>
    if k.2 ≠ sl.gen then .notFound
    else
      match σ.data.get? sl.payload with
      | some v => .found v
      | none => .oob

/-- Model of `slot_map::erase(iterator pos)` at dense position `p` (state effect only;
the returned iterator is dropped).  Mirrors the three branches of the source:
`pos == end()`, `pos == end() - 1`, and the swap-with-last case. -/
def eraseIter (σ : SlotMap) (p : Nat) : Option SlotMap :=
  if p = σ.data.length then some σ
  else if p = σ.data.length - 1 then
    match σ.eraseHelper.get? (σ.eraseHelper.length - 1) with  -- m_erase_helper.back()
    | none => none
    | some b =>
      match pushTail { σ with data := σ.data.take (σ.data.length - 1) } b with
      | none => none
      | some σ2 =>
        some { σ2 with eraseHelper := σ2.eraseHelper.take (σ2.eraseHelper.length - 1) }
  else
    match σ.eraseHelper.get? p with                            -- *(begin + dist)
    | none => none
    | some slotIndex =>
      match pushTail σ slotIndex with
      | none => none
      | some σ1 =>
        match σ1.data.get? (σ1.data.length - 1) with           -- m_data.back()
        | none => none
        | some last =>
          let σ2 := { σ1 with
            data := (updAt σ1.data p (fun _ => last)).take (σ1.data.length - 1) }
          match σ2.eraseHelper.get? (σ2.eraseHelper.length - 1) with
          | none => none
          | some updateSlot =>
            let helper3 :=
              (updAt σ2.eraseHelper p (fun _ => updateSlot)).take
                (σ2.eraseHelper.length - 1)
            let σ3 := { σ2 with eraseHelper := helper3 }
            setSlotPayload σ3 updateSlot p

/-- Model of `slot_map::erase(const key_type&)`: validate via `key_valid`, then erase
at `begin() + element_index(key)`; returns the number of erased elements. -/
def eraseKey (σ : SlotMap) (k : Nat × Nat) : Option (SlotMap × Nat) :=
  match keyValid σ k with
  | none => none
  | some valid =>
    if valid then
      match elementIndex σ k with
      | none => none
      | some ei =>
        match eraseIter σ ei with
        | none => none
        | some σ1 => some (σ1, 1)
    else
      some (σ, 0)

/-- Model of `slot_map::pre_insert`: grow when the dense store is at capacity. -/
def preInsert (σ : SlotMap) : Option SlotMap :=
  if σ.data.length = σ.dataCap then grow σ else some σ

/-- Model of `slot_map::finish_inserting_last_element`: pop a slot off the free list,
point it at the last dense position, record the reverse mapping, and build
the returned key from the slot index and the slot's current generation. -/
def finishInserting (σ : SlotMap) : Option (SlotMap × (Nat × Nat)) :=
  match popHead σ with
  | none => none
  | some (σ1, slotIndex) =>
    match setSlotPayload σ1 slotIndex (σ1.data.length - 1) with
    | none => none
    | some σ2 =>
      let σ3 := { σ2 with eraseHelper := σ2.eraseHelper ++ [slotIndex] }
      match σ3.slots.get? slotIndex with
      | none => none
      | some sl => some (σ3, (slotIndex, sl.gen))

/-- Model of `slot_map::insert`: `pre_insert`, push the value onto the dense store,
and finish. -/
def insertOp (σ : SlotMap) (v : Nat) : Option (SlotMap × (Nat × Nat)) :=
  match preInsert σ with
  | none => none
  | some σ1 => finishInserting { σ1 with data := σ1.data ++ [v] }

/-- Model of `slot_map::clear`: clear the three vectors (capacities preserved) and
call `grow_slots()`. -/
def clearOp (σ : SlotMap) : Option SlotMap :=
  growSlots { σ with data := [], slots := [], eraseHelper := [] }

/-- Model of `slot_map::size`. -/
def sizeOp (σ : SlotMap) : Nat := σ.data.length

/-- A public mutating operation of the container (insert by value, erase by
key), for stating reachability. -/
inductive Op where
  | ins (v : Nat)
  | del (k : Nat × Nat)
deriving DecidableEq, Repr

/-- Apply one public operation, keeping only the state. -/
def applyOp (op : Op) (σ : SlotMap) : Option SlotMap :=
  match op with
  | .ins v => (insertOp σ v).map Prod.fst
  | .del k => (eraseKey σ k).map Prod.fst

/-- Run a sequence of public operations. -/
def exec (ops : List Op) (σ : SlotMap) : Option SlotMap :=
  match ops with
  | [] => some σ
  | op :: rest =>
    match applyOp op σ with
    | none => none
    | some σ1 => exec rest σ1

/-- The state reached from the default-constructed container by `ops`
(UB collapses to `emptySM`; theorems always pair uses of this with an
explicit `exec ... = some ...` fact). -/
def stateAfter (ops : List Op) : SlotMap :=
  (exec ops emptySM).getD emptySM

/-- A slot index is occupied exactly when some live dense position maps back
to it through the reverse index `m_erase_helper`. -/
def occupiedB (σ : SlotMap) (s : Nat) : Bool :=
  σ.eraseHelper.contains s

/-- Bool checker for the reverse-consistency / bijection invariant of the
specification: the reverse index and dense store have equal length and
`slots[reverse[p]].payload = p` for every live dense position `p`. -/
def reverseConsistentB (σ : SlotMap) : Bool :=
  σ.eraseHelper.length = σ.data.length &&
  (List.range σ.eraseHelper.length).all (fun p =>
    match σ.eraseHelper.get? p with
    | some s =>
      match σ.slots.get? s with
      | some sl => sl.payload = p
      | none => false
    | none => false)

/-- Bool checker: the free-list tail cursor is either not an occupied slot,
or it is the slot owning the last dense position. -/
def tailOkB (σ : SlotMap) : Bool :=
  !(σ.eraseHelper.contains σ.freeTail) ||
    (σ.eraseHelper.get? (σ.eraseHelper.length - 1) == some σ.freeTail)

/-- Walk the free list from `m_free_head` through `payload` links, stopping
at a self-link, an out-of-range link, or when fuel runs out. -/
def freeWalkAux (σ : SlotMap) : Nat → Nat → List Nat
  | 0, c => [c]
  | fuel + 1, c =>
    c :: (match σ.slots.get? c with
          | none => []
          | some sl => if sl.payload = c then [] else freeWalkAux σ fuel sl.payload)

/-- The list of slot indices visited when walking the free list. -/
def freeWalk (σ : SlotMap) : List Nat :=
  freeWalkAux σ σ.slots.length σ.freeHead

/-- All slots of the slot table carry generation 0. -/
def allGensZeroB (σ : SlotMap) : Bool :=
  σ.slots.all (fun sl => sl.gen = 0)

/-! ### Concrete operation sequences used by the claim scenarios -/

/-- Insert two values, then erase the first by its key. -/
def c1Ops : List Op := [Op.ins 1, Op.ins 2, Op.del (0, 0)]

/-- Insert one value and erase it: its slot's generation becomes 1. -/
def c2PreOps : List Op := [Op.ins 100, Op.del (0, 0)]

/-- Fill slots 1..19, erase the last insertion, insert once more: the final
insertion reuses slot 0 (the FIFO free list has cycled back to it). -/
def c2ReuseOps : List Op :=
  (List.range 19).map (fun i => Op.ins (i + 1)) ++ [Op.del (19, 0), Op.ins 99]

/-- Insert three values A, B, C. -/
def c3Base : SlotMap := stateAfter [Op.ins 10, Op.ins 11, Op.ins 12]

/-- Thirty-nine insertions (the 39th lands in slot 39 through the single-free-slot
branch of `pop_head`, whose `assert` fails, and leaves the free-list head
pointing at the now-occupied slot 39), one key erase, one more insertion. -/
def c5Ops : List Op :=
  ((List.range 39).map Op.ins) ++ [Op.del (0, 0), Op.ins 39]

/-- Twenty insertions: the 20th triggers the growth event while slot 19 is the
one remaining free slot. -/
def c6Ops : List Op := (List.range 20).map Op.ins

/-- The 21 insertions of the growth scenario, over arbitrary values. -/
def c8Ops (v0 v1 v2 v3 v4 v5 v6 v7 v8 v9 v10 v11 v12 v13 v14 v15 v16 v17 v18
    v19 v20 : Nat) : List Op :=
  [Op.ins v0, Op.ins v1, Op.ins v2, Op.ins v3, Op.ins v4, Op.ins v5,
   Op.ins v6, Op.ins v7, Op.ins v8, Op.ins v9, Op.ins v10, Op.ins v11,
   Op.ins v12, Op.ins v13, Op.ins v14, Op.ins v15, Op.ins v16, Op.ins v17,
   Op.ins v18, Op.ins v19, Op.ins v20]

/-- The container after inserting the value 5 into a fresh container,
together with the issued key. -/
def c10Inserted : SlotMap × (Nat × Nat) := (insertOp emptySM 5).getD (emptySM, (0, 0))

/-- The same container after `clear()`. -/
def c10Cleared : SlotMap := (clearOp c10Inserted.1).getD emptySM

/-- The dense-store-full state inside the 20th insertion, just before
`pop_head` calls `grow`: 19 values inserted, the 20th (value 19) already
pushed onto the dense store.  This is the state at which the first growth
event of the 21-insertion scenario actually fires. -/
def c8Mid : SlotMap :=
  let s19 := stateAfter ((List.range 19).map Op.ins)
  { s19 with data := s19.data ++ [19] }

/-! ### Basic properties of the operations -/

theorem setSlotPayload_some {σ σ' : SlotMap} {i p : Nat}
    (h : setSlotPayload σ i p = some σ') :
    σ'.slots = updAt σ.slots i (fun s => { s with payload := p }) ∧
    σ'.data = σ.data ∧ σ'.eraseHelper = σ.eraseHelper ∧
    σ'.freeHead = σ.freeHead ∧ σ'.freeTail = σ.freeTail ∧
    σ'.dataCap = σ.dataCap ∧ σ'.slotsCap = σ.slotsCap := by
  simp only [setSlotPayload] at h
  split at h
  · cases h; exact ⟨rfl, rfl, rfl, rfl, rfl, rfl, rfl⟩
  · cases h

theorem bumpGen_some {σ σ' : SlotMap} {i : Nat}
    (h : bumpGen σ i = some σ') :
    σ'.slots = updAt σ.slots i (fun s => { s with gen := s.gen + 1 }) ∧
    σ'.data = σ.data ∧ σ'.eraseHelper = σ.eraseHelper ∧
    σ'.freeHead = σ.freeHead ∧ σ'.freeTail = σ.freeTail ∧
    σ'.dataCap = σ.dataCap ∧ σ'.slotsCap = σ.slotsCap := by
  simp only [bumpGen] at h
  split at h
  · cases h; exact ⟨rfl, rfl, rfl, rfl, rfl, rfl, rfl⟩
  · cases h

theorem growSlots_some {σ σ' : SlotMap} (h : growSlots σ = some σ') :
    σ'.data = σ.data ∧ σ'.eraseHelper = σ.eraseHelper ∧ σ'.dataCap = σ.dataCap ∧
    ∃ ext : List Slot,
      σ'.slots = updAt (σ.slots ++ ext) ((σ.slots ++ ext).length - 1)
        (fun s => { s with payload := (σ.slots ++ ext).length - 1 }) ∧
      σ.slots.length < (σ.slots ++ ext).length := by
  simp only [growSlots, growthRate, initialAlloc] at h
  split at h
  · next hc =>
    split at h
    · cases h
    · cases h
      refine ⟨rfl, rfl, rfl, _, rfl, ?_⟩
      simp only [List.length_append, List.length_map, List.length_range']
      omega
  · next hc =>
    split at h
    · cases h
    · cases h
      refine ⟨rfl, rfl, rfl, _, rfl, ?_⟩
      simp only [List.length_append, List.length_map, List.length_range']
      omega

theorem grow_some {σ σ' : SlotMap} (h : grow σ = some σ') :
    σ'.data = σ.data ∧ σ'.eraseHelper = σ.eraseHelper ∧
    ∃ ext : List Slot,
      σ'.slots = updAt (σ.slots ++ ext) ((σ.slots ++ ext).length - 1)
        (fun s => { s with payload := (σ.slots ++ ext).length - 1 }) ∧
      σ.slots.length < (σ.slots ++ ext).length := by
  simp only [grow] at h
  split at h
  · cases h
  · next σ1 hg =>
    cases h
    obtain ⟨h1, h2, _, ext, h4, h5⟩ := growSlots_some hg
    exact ⟨h1, h2, ext, h4, h5⟩

theorem popHead_some {σ σ' : SlotMap} {i : Nat} (h : popHead σ = some (σ', i)) :
    σ'.data = σ.data ∧ σ'.eraseHelper = σ.eraseHelper ∧
    (∃ sl, σ'.slots.get? i = some sl) ∧
    (σ'.slots = σ.slots ∨
      ∃ ext : List Slot,
        σ'.slots = updAt (σ.slots ++ ext) ((σ.slots ++ ext).length - 1)
          (fun s => { s with payload := (σ.slots ++ ext).length - 1 }) ∧
        σ.slots.length < (σ.slots ++ ext).length) := by
  simp only [popHead] at h
  split at h
  · cases h
  · next σ1 hgr =>
    have hσ1 : σ1.data = σ.data ∧ σ1.eraseHelper = σ.eraseHelper ∧
        (σ1.slots = σ.slots ∨
          ∃ ext : List Slot,
            σ1.slots = updAt (σ.slots ++ ext) ((σ.slots ++ ext).length - 1)
              (fun s => { s with payload := (σ.slots ++ ext).length - 1 }) ∧
            σ.slots.length < (σ.slots ++ ext).length) := by
      split at hgr
      · obtain ⟨h1, h2, ext, h4, h5⟩ := grow_some hgr
        exact ⟨h1, h2, Or.inr ⟨ext, h4, h5⟩⟩
      · cases hgr; exact ⟨rfl, rfl, Or.inl rfl⟩
    obtain ⟨h1, h2, h3⟩ := hσ1
    split at h
    · cases h
    · next sl hget =>
      split at h
      · cases h; exact ⟨h1, h2, ⟨sl, hget⟩, h3⟩
      · cases h; exact ⟨h1, h2, ⟨sl, hget⟩, h3⟩

theorem map_gen_setPayload (o : Option Slot) (p : Nat) :
    (o.map (fun s => { s with payload := p })).map Slot.gen = o.map Slot.gen := by
  cases o <;> rfl

theorem map_gen_bump (o : Option Slot) :
    (o.map (fun s => { s with gen := s.gen + 1 })).map Slot.gen
      = o.map (fun sl => sl.gen + 1) := by
  cases o <;> rfl

theorem map_genSucc_setPayload (o : Option Slot) (p : Nat) :
    (o.map (fun s => { s with payload := p })).map (fun sl => sl.gen + 1)
      = o.map (fun sl => sl.gen + 1) := by
  cases o <;> rfl

theorem pushTail_props {σ σ' : SlotMap} {t : Nat} (h : pushTail σ t = some σ') :
    σ'.data = σ.data ∧ σ'.eraseHelper = σ.eraseHelper ∧ σ'.freeTail = t ∧
    σ'.slots.length = σ.slots.length ∧
    (∀ j, j ≠ σ.freeTail → j ≠ t → σ'.slots.get? j = σ.slots.get? j) ∧
    (∀ j, j ≠ t → (σ'.slots.get? j).map Slot.gen = (σ.slots.get? j).map Slot.gen) ∧
    (σ'.slots.get? t).map Slot.gen = (σ.slots.get? t).map (fun sl => sl.gen + 1) := by
  simp only [pushTail] at h
  split at h
  · cases h
  · next σ1 h1 =>
    split at h
    · cases h
    · next σ2 h2 =>
      obtain ⟨s1, d1, e1, _, _, _, _⟩ := setSlotPayload_some h1
      obtain ⟨s2, d2, e2, _, _, _, _⟩ := setSlotPayload_some h2
      obtain ⟨s3, d3, e3, _, ft3, _, _⟩ := bumpGen_some h
      simp only at s3 d3 e3 ft3
      have hchain : σ'.slots =
          updAt (updAt (updAt σ.slots σ.freeTail (fun s => { s with payload := t }))
              t (fun s => { s with payload := t }))
            t (fun s => { s with gen := s.gen + 1 }) := by
        rw [s3, s2, s1]
      refine ⟨by rw [d3, d2, d1], by rw [e3, e2, e1], ft3, ?_, ?_, ?_, ?_⟩
      · rw [hchain, updAt_length, updAt_length, updAt_length]
      · intro j hj1 hj2
        rw [hchain, get?_updAt_ne _ _ _ _ hj2, get?_updAt_ne _ _ _ _ hj2,
          get?_updAt_ne _ _ _ _ hj1]
      · intro j hj
        rw [hchain, get?_updAt_ne _ _ _ _ hj, get?_updAt_ne _ _ _ _ hj]
        by_cases hjf : j = σ.freeTail
        · rw [hjf, get?_updAt_self, map_gen_setPayload]
        · rw [get?_updAt_ne _ _ _ _ hjf]
      · rw [hchain, get?_updAt_self, map_gen_bump, get?_updAt_self,
          map_genSucc_setPayload]
        by_cases htf : t = σ.freeTail
        · rw [htf, get?_updAt_self, map_genSucc_setPayload]
        · rw [get?_updAt_ne _ _ _ _ htf]

theorem atKey_found_iff {σ : SlotMap} {s g v : Nat} :
    atKey σ (s, g) = .found v ↔
      ∃ sl, σ.slots.get? s = some sl ∧ g = sl.gen ∧
        σ.data.get? sl.payload = some v := by
  unfold atKey
  have hfst : ((s, g) : Nat × Nat).1 = s := rfl
  have hsnd : ((s, g) : Nat × Nat).2 = g := rfl
  rw [hfst, hsnd]
  constructor
  · intro h
    split at h
    · cases h
    · next sl hsl =>
      split at h
      · cases h
      · next hg =>
        split at h
        · next w hw => cases h; exact ⟨sl, hsl, not_not.mp hg, hw⟩
        · cases h
  · rintro ⟨sl, hsl, hgen, hdat⟩
    rw [hsl]
    dsimp only
    rw [if_neg (not_not.mpr hgen), hdat]

theorem atKey_notFound_iff {σ : SlotMap} {s g : Nat} :
    atKey σ (s, g) = .notFound ↔ (σ.slots.get? s).map Slot.gen ≠ some g := by
  unfold atKey
  have hfst : ((s, g) : Nat × Nat).1 = s := rfl
  have hsnd : ((s, g) : Nat × Nat).2 = g := rfl
  rw [hfst, hsnd]
  cases hs : σ.slots.get? s with
  | none => simp
  | some sl =>
    dsimp only
    by_cases hg : g = sl.gen
    · rw [if_neg (not_not.mpr hg)]
      constructor
      · intro h
        split at h <;> cases h
      · intro h
        exact absurd (by simp [hg]) h
    · rw [if_pos hg]
      constructor
      · intro _
        simp only [Option.map_some']
        intro hc
        exact hg (((Option.some.injEq sl.gen g).mp hc).symm)
      · intro _
        rfl

/-- Round trip: whenever `insert` completes without undefined behaviour,
`at` applied to the returned key immediately yields the inserted value. -/
theorem insert_then_at {σ σ' : SlotMap} {v : Nat} {k : Nat × Nat}
    (h : insertOp σ v = some (σ', k)) : atKey σ' k = .found v := by
  simp only [insertOp, preInsert] at h
  split at h
  · cases h
  · next σ1 hpre =>
    have hdata1 : σ1.data = σ.data ∨ σ1.data = σ.data := by
      split at hpre
      · exact Or.inl (grow_some hpre).1
      · cases hpre; exact Or.inl rfl
    simp only [finishInserting] at h
    split at h
    · cases h
    · next σ2 sIdx hpop =>
      obtain ⟨hd2, he2, ⟨sl0, hsl0⟩, _⟩ := popHead_some hpop
      split at h
      · cases h
      · next σ3 hset =>
        obtain ⟨s3, d3, e3, _, _, _, _⟩ := setSlotPayload_some hset
        split at h
        · cases h
        · next sl hsl =>
          cases h
          rw [atKey_found_iff]
          refine ⟨sl, hsl, rfl, ?_⟩
          have hslval : sl = { sl0 with payload := σ2.data.length - 1 } := by
            have : ({ σ3 with
                eraseHelper := σ3.eraseHelper ++ [sIdx] } : SlotMap).slots.get? sIdx
                = some { sl0 with payload := σ2.data.length - 1 } := by
              simp only [s3, get?_updAt_self, hsl0]
              rfl
            rw [this] at hsl
            exact (Option.some.injEq _ _).mp hsl.symm
          have hdata3 : σ3.data = σ1.data ++ [v] := by rw [d3, hd2]
          rw [hslval]
          simp only [hdata3, hd2]
          have hlen : (σ1.data ++ [v]).length - 1 = σ1.data.length := by
            rw [List.length_append]
            simp
          rw [hlen]
          exact get?_append_last σ1.data v

theorem lt_get?_some {α : Type} {l : List α} {i : Nat} (h : i < l.length) :
    ∃ a, l.get? i = some a := by
  induction l generalizing i with
  | nil => simp at h
  | cons b t ih =>
    cases i with
    | zero => exact ⟨b, rfl⟩
    | succ j =>
      obtain ⟨a, ha⟩ := ih (Nat.lt_of_succ_lt_succ h)
      exact ⟨a, by simpa [List.get?] using ha⟩

/-! ### Generation monotonicity -/

/-- The slot table only grows, and each slot's generation never decreases. -/
def GenLe (l l' : List Slot) : Prop :=
  l.length ≤ l'.length ∧
  ∀ i sl, l.get? i = some sl → ∃ sl', l'.get? i = some sl' ∧ sl.gen ≤ sl'.gen

theorem genLe_refl (l : List Slot) : GenLe l l :=
  ⟨Nat.le_refl _, fun _ sl h => ⟨sl, h, Nat.le_refl _⟩⟩

theorem genLe_trans {a b c : List Slot} (h1 : GenLe a b) (h2 : GenLe b c) :
    GenLe a c := by
  refine ⟨Nat.le_trans h1.1 h2.1, fun i sl h => ?_⟩
  obtain ⟨sl1, hb, hg1⟩ := h1.2 i sl h
  obtain ⟨sl2, hc, hg2⟩ := h2.2 i sl1 hb
  exact ⟨sl2, hc, Nat.le_trans hg1 hg2⟩

theorem genLe_updAt_payload (l : List Slot) (i p : Nat) :
    GenLe l (updAt l i (fun s => { s with payload := p })) := by
  refine ⟨Nat.le_of_eq (updAt_length l i _).symm, fun j sl h => ?_⟩
  by_cases hj : j = i
  · subst hj
    rw [get?_updAt_self, h]
    exact ⟨_, rfl, Nat.le_refl _⟩
  · rw [get?_updAt_ne _ _ _ _ hj]
    exact ⟨sl, h, Nat.le_refl _⟩

theorem genLe_updAt_bump (l : List Slot) (i : Nat) :
    GenLe l (updAt l i (fun s => { s with gen := s.gen + 1 })) := by
  refine ⟨Nat.le_of_eq (updAt_length l i _).symm, fun j sl h => ?_⟩
  by_cases hj : j = i
  · subst hj
    rw [get?_updAt_self, h]
    exact ⟨_, rfl, Nat.le_succ _⟩
  · rw [get?_updAt_ne _ _ _ _ hj]
    exact ⟨sl, h, Nat.le_refl _⟩

theorem genLe_append (l m : List Slot) : GenLe l (l ++ m) := by
  refine ⟨by simp, fun j sl h => ?_⟩
  rw [get?_append_left _ _ _ (get?_some_lt h)]
  exact ⟨sl, h, Nat.le_refl _⟩

theorem genLe_growSlots {σ σ' : SlotMap} (h : growSlots σ = some σ') :
    GenLe σ.slots σ'.slots := by
  obtain ⟨_, _, _, ext, hs, _⟩ := growSlots_some h
  rw [hs]
  exact genLe_trans (genLe_append _ _) (genLe_updAt_payload _ _ _)

theorem genLe_grow {σ σ' : SlotMap} (h : grow σ = some σ') :
    GenLe σ.slots σ'.slots := by
  obtain ⟨_, _, ext, hs, _⟩ := grow_some h
  rw [hs]
  exact genLe_trans (genLe_append _ _) (genLe_updAt_payload _ _ _)

theorem genLe_popHead {σ σ' : SlotMap} {i : Nat} (h : popHead σ = some (σ', i)) :
    GenLe σ.slots σ'.slots := by
  obtain ⟨_, _, _, hs⟩ := popHead_some h
  cases hs with
  | inl he => rw [he]; exact genLe_refl _
  | inr he =>
    obtain ⟨ext, he, _⟩ := he
    rw [he]
    exact genLe_trans (genLe_append _ _) (genLe_updAt_payload _ _ _)

theorem genLe_pushTail {σ σ' : SlotMap} {t : Nat} (h : pushTail σ t = some σ') :
    GenLe σ.slots σ'.slots := by
  simp only [pushTail] at h
  split at h
  · cases h
  · next σ1 h1 =>
    split at h
    · cases h
    · next σ2 h2 =>
      have hb := bumpGen_some h
      have e1 := (setSlotPayload_some h1).1
      have e2 := (setSlotPayload_some h2).1
      have e3 := hb.1
      simp only at e3
      rw [e3, e2, e1]
      exact genLe_trans (genLe_updAt_payload _ _ _)
        (genLe_trans (genLe_updAt_payload _ _ _) (genLe_updAt_bump _ _))

theorem genLe_eraseIter {σ σ' : SlotMap} {p : Nat} (h : eraseIter σ p = some σ') :
    GenLe σ.slots σ'.slots := by
  simp only [eraseIter] at h
  split at h
  · cases h; exact genLe_refl _
  · split at h
    · split at h
      · cases h
      · next b hb =>
        split at h
        · cases h
        · next σ2 h2 =>
          cases h
          have hle := genLe_pushTail h2
          exact hle
    · split at h
      · cases h
      · next sIdx hsi =>
        split at h
        · cases h
        · next σ1 h1 =>
          split at h
          · cases h
          · next last hlast =>
            split at h
            · cases h
            · next u hu =>
              have he := setSlotPayload_some h
              have hs := he.1
              simp only at hs
              rw [hs]
              exact genLe_trans (genLe_pushTail h1) (genLe_updAt_payload _ _ _)

theorem genLe_eraseKey {σ σ' : SlotMap} {k : Nat × Nat} {n : Nat}
    (h : eraseKey σ k = some (σ', n)) : GenLe σ.slots σ'.slots := by
  simp only [eraseKey] at h
  split at h
  · cases h
  · next valid hv =>
    split at h
    · split at h
      · cases h
      · next ei hei =>
        split at h
        · cases h
        · next σ1 h1 =>
          cases h
          exact genLe_eraseIter h1
    · cases h
      exact genLe_refl _

theorem genLe_insertOp {σ σ' : SlotMap} {v : Nat} {k : Nat × Nat}
    (h : insertOp σ v = some (σ', k)) : GenLe σ.slots σ'.slots := by
  simp only [insertOp, preInsert] at h
  split at h
  · cases h
  · next σ1 hpre =>
    have hg1 : GenLe σ.slots σ1.slots := by
      split at hpre
      · exact genLe_grow hpre
      · cases hpre; exact genLe_refl _
    simp only [finishInserting] at h
    split at h
    · cases h
    · next σ2 sIdx hpop =>
      have hg2 := genLe_popHead hpop
      split at h
      · cases h
      · next σ3 hset =>
        have hs3 := (setSlotPayload_some hset).1
        split at h
        · cases h
        · next sl hsl =>
          cases h
          refine genLe_trans hg1 (genLe_trans hg2 ?_)
          rw [hs3]
          exact genLe_updAt_payload _ _ _

theorem genLe_applyOp {σ σ' : SlotMap} {op : Op} (h : applyOp op σ = some σ') :
    GenLe σ.slots σ'.slots := by
  cases op with
  | ins v =>
    simp only [applyOp, Option.map_eq_some'] at h
    obtain ⟨⟨σ1, k⟩, h1, h2⟩ := h
    cases h2
    exact genLe_insertOp h1
  | del k =>
    simp only [applyOp, Option.map_eq_some'] at h
    obtain ⟨⟨σ1, n⟩, h1, h2⟩ := h
    cases h2
    exact genLe_eraseKey h1

theorem genLe_exec {ops : List Op} {σ σ' : SlotMap} (h : exec ops σ = some σ') :
    GenLe σ.slots σ'.slots := by
  induction ops generalizing σ with
  | nil => simp only [exec] at h; cases h; exact genLe_refl _
  | cons op rest ih =>
    simp only [exec] at h
    split at h
    · cases h
    · next σ1 h1 =>
      exact genLe_trans (genLe_applyOp h1) (ih h)

/-! ### Consistency checkers: bridge lemmas -/

theorem reverseConsistentB_spec {σ : SlotMap} (h : reverseConsistentB σ = true) :
    σ.eraseHelper.length = σ.data.length ∧
    ∀ p s, σ.eraseHelper.get? p = some s →
      ∃ sl, σ.slots.get? s = some sl ∧ sl.payload = p := by
  unfold reverseConsistentB at h
  rw [Bool.and_eq_true] at h
  obtain ⟨h1, h2⟩ := h
  refine ⟨of_decide_eq_true h1, fun p s hps => ?_⟩
  have hpmem : p ∈ List.range σ.eraseHelper.length :=
    List.mem_range.mpr (get?_some_lt hps)
  have hpred := List.all_eq_true.mp h2 p hpmem
  rw [hps] at hpred
  dsimp only at hpred
  cases hss : σ.slots.get? s with
  | none => rw [hss] at hpred; simp at hpred
  | some sl =>
    rw [hss] at hpred
    exact ⟨sl, rfl, of_decide_eq_true hpred⟩

theorem tailOkB_spec {σ : SlotMap} (h : tailOkB σ = true) :
    σ.eraseHelper.contains σ.freeTail = false ∨
    σ.eraseHelper.get? (σ.eraseHelper.length - 1) = some σ.freeTail := by
  unfold tailOkB at h
  rw [Bool.or_eq_true] at h
  cases h with
  | inl h => exact Or.inl (by rwa [Bool.not_eq_true'] at h)
  | inr h => exact Or.inr (eq_of_beq h)

/-- C3: for a state satisfying the documented reverse-index/bijection
invariant (plus a sound free-list tail cursor), erasing one element through
a key of an occupied slot leaves every other live handle resolvable to its
original value. -/
theorem erase_preserves_other_live_handles
    (σ σ2 : SlotMap) (n s g s' g' v : Nat)
    (hcons : reverseConsistentB σ = true)
    (htail : tailOkB σ = true)
    (hocc : ∃ p, σ.eraseHelper.get? p = some s)
    (hocc' : ∃ q, σ.eraseHelper.get? q = some s')
    (hne : s' ≠ s)
    (hat : atKey σ (s', g') = .found v)
    (her : eraseKey σ (s, g) = some (σ2, n)) :
    atKey σ2 (s', g') = .found v := by
  obtain ⟨hlen, hrc⟩ := reverseConsistentB_spec hcons
  obtain ⟨p, hp⟩ := hocc
  obtain ⟨sl_s, hsls, hpayl_s⟩ := hrc p s hp
  obtain ⟨q, hq⟩ := hocc'
  rw [atKey_found_iff] at hat
  obtain ⟨sl', hsl', hgen', hdat'⟩ := hat
  obtain ⟨sl_q, hslq, hpayl_q⟩ := hrc q s' hq
  have hslq' : sl_q = sl' := by
    rw [hsl'] at hslq
    exact (Option.some.inj hslq).symm
  have hq'pos : sl'.payload = q := by rw [← hslq']; exact hpayl_q
  have hplt : p < σ.data.length := by rw [← hlen]; exact get?_some_lt hp
  have hqlt : q < σ.data.length := by rw [← hlen]; exact get?_some_lt hq
  have hqp : q ≠ p := by
    intro hc
    apply hne
    rw [hc, hp] at hq
    exact (Option.some.inj hq).symm
  have hkv : keyValid σ (s, g) = some (decide (g = sl_s.gen)) := by
    unfold keyValid
    rw [show ((s, g) : Nat × Nat).1 = s from rfl, hsls]
  simp only [eraseKey] at her
  rw [hkv] at her
  dsimp only at her
  by_cases hvg : g = sl_s.gen
  case neg =>
    rw [decide_eq_false hvg] at her
    rw [if_neg (by simp)] at her
    cases her
    exact atKey_found_iff.mpr ⟨sl', hsl', hgen', hdat'⟩
  case pos =>
    rw [decide_eq_true hvg, if_pos rfl] at her
    have hei : elementIndex σ (s, g) = some p := by
      unfold elementIndex
      rw [show ((s, g) : Nat × Nat).1 = s from rfl, hsls]
      simp [hpayl_s]
    rw [hei] at her
    dsimp only at her
    split at her
    · cases her
    · next σe he =>
      cases her
      simp only [eraseIter] at he
      rw [if_neg (Nat.ne_of_lt hplt)] at he
      by_cases hlast : p = σ.data.length - 1
      · -- erased element is the last dense element
        rw [if_pos hlast] at he
        have hb : σ.eraseHelper.get? (σ.eraseHelper.length - 1) = some s := by
          rw [hlen, ← hlast]; exact hp
        rw [hb] at he
        dsimp only at he
        split at he
        · cases he
        · next σp hpt =>
          cases he
          obtain ⟨hpd, hpe, hpft, hplen2, hunch, hgensame, hgent⟩ :=
            pushTail_props hpt
          simp only at hpd hpe hpft hplen2 hunch hgensame hgent
          have hsft : s' ≠ σ.freeTail := by
            cases tailOkB_spec htail with
            | inl hcf =>
              intro hc
              exact contains_false_get? hcf q (by rw [← hc]; exact hq)
            | inr hgl =>
              have hfs : σ.freeTail = s := by
                rw [hb] at hgl
                exact (Option.some.inj hgl).symm
              intro hc
              exact hne (hc.trans hfs)
          have hs2 : σp.slots.get? s' = some sl' := by
            rw [hunch s' hsft hne]
            exact hsl'
          have hq' : q < σ.data.length - 1 := by
            have hqne : q ≠ σ.data.length - 1 := by rw [← hlast]; exact hqp
            omega
          rw [atKey_found_iff]
          refine ⟨sl', hs2, hgen', ?_⟩
          show σp.data.get? sl'.payload = some v
          rw [hpd, hq'pos, get?_take_lt _ _ _ hq', ← hq'pos]
          exact hdat'
      · -- erased element is in the middle: swap with the last element
        rw [if_neg hlast] at he
        rw [hp] at he
        dsimp only at he
        split at he
        · cases he
        · next σ1 hpt =>
          obtain ⟨hpd, hpe, hpft, hplen2, hunch, hgensame, hgent⟩ :=
            pushTail_props hpt
          split at he
          · cases he
          · next lastv hlastv =>
            split at he
            · cases he
            · next u hu =>
              rw [hpe] at hu
              obtain ⟨hs2slots, hs2data, hs2helper, _, _, _, _⟩ :=
                setSlotPayload_some he
              simp only at hs2slots hs2data hs2helper
              have hplt1 : p < σ.data.length - 1 := by omega
              by_cases hsu : s' = u
              · -- s' owns the last dense element and is repointed to p
                obtain ⟨slu, hslu, hpaylu⟩ := hrc (σ.eraseHelper.length - 1)
                  s' (by rw [hsu]; exact hu)
                have hslu' : slu = sl' := by
                  rw [hsl'] at hslu
                  exact (Option.some.inj hslu).symm
                have hq'last : sl'.payload = σ.data.length - 1 := by
                  rw [← hslu', hpaylu, hlen]
                have hlastv' : lastv = v := by
                  have hd1 : σ1.data = σ.data := hpd
                  rw [hd1] at hlastv
                  rw [hq'last] at hdat'
                  rw [hdat'] at hlastv
                  exact (Option.some.inj hlastv).symm
                have hs1len : σ1.slots.length = σ.slots.length := hplen2
                have hs'lt : s' < σ.slots.length := get?_some_lt hsl'
                obtain ⟨sl1, hsl1⟩ :=
                  lt_get?_some (l := σ1.slots) (i := s') (by rw [hs1len]; exact hs'lt)
                have hgen1 : sl1.gen = sl'.gen := by
                  have := hgensame s' hne
                  rw [hsl1, hsl'] at this
                  simpa using this
                rw [hsu] at hsl1
                rw [atKey_found_iff]
                refine ⟨{ sl1 with payload := p }, ?_, ?_, ?_⟩
                · rw [hs2slots, hsu, get?_updAt_self, hsl1]
                  rfl
                · simpa using hgen'.trans hgen1.symm
                · rw [hs2data]
                  show (List.take (σ1.data.length - 1)
                    (updAt σ1.data p (fun _ => lastv))).get? p = some v
                  have hd1 : σ1.data = σ.data := hpd
                  rw [hd1]
                  rw [get?_take_lt _ _ _ hplt1, get?_updAt_self]
                  obtain ⟨w, hw⟩ := lt_get?_some (l := σ.data) (i := p) hplt
                  rw [hw]
                  simp [hlastv']
              · -- slot s' is untouched by the erase
                have hsft : s' ≠ σ.freeTail := by
                  cases tailOkB_spec htail with
                  | inl hcf =>
                    intro hc
                    exact contains_false_get? hcf q (by rw [← hc]; exact hq)
                  | inr hgl =>
                    have hfu : σ.freeTail = u := by
                      rw [hu] at hgl
                      exact (Option.some.inj hgl).symm
                    intro hc
                    exact hsu (hc.trans hfu)
                have hqnelast : q ≠ σ.eraseHelper.length - 1 := by
                  intro hc
                  apply hsu
                  rw [hc, hu] at hq
                  exact (Option.some.inj hq).symm
                have hq' : q < σ.data.length - 1 := by
                  have := get?_some_lt hq
                  rw [hlen] at this hqnelast
                  omega
                have hs1 : σ1.slots.get? s' = some sl' := by
                  rw [hunch s' hsft hne]
                  exact hsl'
                rw [atKey_found_iff]
                refine ⟨sl', ?_, hgen', ?_⟩
                · rw [hs2slots, get?_updAt_ne _ _ _ _ hsu]
                  exact hs1
                · rw [hs2data]
                  have hd1 : σ1.data = σ.data := hpd
                  rw [hd1, hq'pos, get?_take_lt _ _ _ hq',
                    get?_updAt_ne _ _ _ _ hqp, ← hq'pos]
                  exact hdat'

/-! ### Claim theorems -/

/-- C4: for every value `v` and every state, `at` applied to the key
returned by `insert(v)` yields a value equal to `v` immediately after the
insertion completes (no intervening erase has touched the slot). -/
theorem insert_roundtrip (σ σ' : SlotMap) (v : Nat) (k : Nat × Nat)
    (h : insertOp σ v = some (σ', k)) : atKey σ' k = .found v :=
  insert_then_at h

/-- Witness for C4: inserting 7 into the empty container and reading it back. -/
theorem insert_roundtrip_witness :
    atKey ((insertOp emptySM 7).getD (emptySM, (0, 0))).1
      ((insertOp emptySM 7).getD (emptySM, (0, 0))).2 = AtResult.found 7 :=
  insert_roundtrip emptySM _ 7 _ (by decide)

/-- C9: when the geometric capacity computation `capacity() * growth_rate`
overflows 32-bit unsigned arithmetic, `grow` clamps the new capacity to the
maximum representable value of the index type instead of the wrapped value. -/
theorem grow_clamps_capacity_on_overflow (cap : Nat)
    (h1 : 2 ^ 31 ≤ cap) (h2 : cap < 2 ^ 32) :
    growNewCapacity cap = 2 ^ 32 - 1 := by
  have hc0 : cap ≠ 0 := by omega
  simp only [growNewCapacity, growthRate, initialAlloc, if_neg hc0]
  rw [if_pos]
  omega

/-- Witness for C9: the clamp fires at capacity `2 ^ 31`. -/
theorem grow_clamps_capacity_on_overflow_witness :
    growNewCapacity (2 ^ 31) = 2 ^ 32 - 1 :=
  grow_clamps_capacity_on_overflow (2 ^ 31) (Nat.le_refl _) (by norm_num)

/-- C7 (showing the code bug): `key_valid` dereferences
`slots[key_index(key)]` without any bounds check, so key-checked `erase` on
the default-constructed (empty) container performs an out-of-bounds read of
the empty slot table for every handle, instead of returning 0. -/
theorem erase_on_empty_reads_out_of_bounds :
    (∀ i g : Nat, eraseKey emptySM (i, g) = none) ∧
    (∀ i g : Nat, keyValid emptySM (i, g) = none) := by
  constructor <;> intro i g <;> cases i <;> rfl

/-- C5 (showing the code bug): after 39 insertions (during the 39th, the
single-free-slot branch of `pop_head` fires with its `assert(size ==
capacity)` false, leaving `m_free_head` pointing at the now-occupied slot
39), one erase and one further insertion, slot 39 is handed out a second
time: the reverse index lists slot 39 at dense position 0 while
`slots[39].payload = 38`, so the bijection/reverse-consistency invariant is
violated in a reachable state. -/
theorem reachable_state_breaks_reverse_consistency :
    (exec c5Ops emptySM).map
      (fun σ => (reverseConsistentB σ, σ.eraseHelper.get? 0,
        (σ.slots.get? 39).map Slot.payload))
      = some (false, some 39, some 38) := by
  decide

/-- C6 (showing the code bug): `grow_slots` resets `m_free_head` and
`m_free_tail` to the freshly created block instead of splicing the new
chain onto the existing free-list tail.  After the 20 insertions that
trigger the first growth event, slot 19 is free (never occupied, generation
0), yet the walk of the free list from the head never visits it: it is
permanently orphaned. -/
theorem growth_discards_existing_free_list :
    (exec c6Ops emptySM).map
      (fun σ => (occupiedB σ 19, (σ.slots.get? 19).map Slot.gen,
        decide (19 ∈ freeWalk σ), σ.freeHead))
      = some (false, some 0, false, 21) := by
  decide

/-- C1 (amended): `at` validates exactly bounds and generation: it reports
not-found if and only if the slot index is out of range of the slot table or
the key's generation differs from that slot's current generation; whenever
the index is in range, the generation matches, and the slot's `payload` is a
live dense position, `at` returns the value stored there.  (Occupancy is not
checked: see the counterexample.) -/
theorem at_validates_bounds_and_generation (σ : SlotMap) (i g : Nat) :
    (atKey σ (i, g) = .notFound ↔ (σ.slots.get? i).map Slot.gen ≠ some g) ∧
    (∀ sl v, σ.slots.get? i = some sl → sl.gen = g →
      σ.data.get? sl.payload = some v → atKey σ (i, g) = .found v) := by
  refine ⟨atKey_notFound_iff, fun sl v hsl hgen hdat => ?_⟩
  exact atKey_found_iff.mpr ⟨sl, hsl, hgen.symm, hdat⟩

/-- Witness for C1's amended theorem, on the container holding one value. -/
theorem at_validates_bounds_and_generation_witness :
    atKey (stateAfter [Op.ins 7]) (0, 0) = AtResult.found 7 ∧
    (atKey (stateAfter [Op.ins 7]) (3, 5) = AtResult.notFound ↔
      ((stateAfter [Op.ins 7]).slots.get? 3).map Slot.gen ≠ some 5) :=
  ⟨(at_validates_bounds_and_generation (stateAfter [Op.ins 7]) 0 0).2
      ⟨0, 0⟩ 7 (by decide) (by decide) (by decide),
   (at_validates_bounds_and_generation (stateAfter [Op.ins 7]) 3 5).1⟩

/-- Counterexample to C1 as stated: in the reachable state obtained by
inserting 1 and 2 and erasing the first key, slot 0 is free (it backs no
live dense position), yet `at` with the never-issued key `(0, 1)` does not
report not-found — it returns the live value 2 belonging to the other
handle.  `at` checks only bounds and generation, not occupancy. -/
theorem at_returns_value_for_unoccupied_slot :
    exec c1Ops emptySM = some (stateAfter c1Ops) ∧
    occupiedB (stateAfter c1Ops) 0 = false ∧
    atKey (stateAfter c1Ops) (0, 1) = AtResult.found 2 := by
  refine ⟨by decide, by decide, by decide⟩

/-- C2: once the slot behind a handle `(s, g)` has been erased (its
generation strictly exceeds `g` in some state `σm`), then after any further
sequence of insert/erase operations, `at` on `(s, g)` still reports
not-found — it can never return the value of a slot reuse — while every
completed later insertion's fresh handle resolves to its own value. -/
theorem stale_handle_never_resolves
    (ops : List Op) (σm σf : SlotMap) (s g gm : Nat)
    (hrun : exec ops σm = some σf)
    (hgen : (σm.slots.get? s).map Slot.gen = some gm)
    (hlt : g < gm) :
    atKey σf (s, g) = .notFound ∧
    ∀ v σg k, insertOp σf v = some (σg, k) → atKey σg k = .found v := by
  constructor
  · rw [atKey_notFound_iff]
    have hsl : ∃ sl, σm.slots.get? s = some sl := by
      cases hx : σm.slots.get? s with
      | none => rw [hx] at hgen; cases hgen
      | some sl => exact ⟨sl, rfl⟩
    obtain ⟨sl, hsl⟩ := hsl
    have hslgen : sl.gen = gm := by
      rw [hsl] at hgen
      simpa using hgen
    obtain ⟨sl', hsl', hle⟩ := (genLe_exec hrun).2 s sl hsl
    rw [hsl']
    simp only [Option.map_some']
    intro hc
    have hgeq : sl'.gen = g := Option.some.inj hc
    omega
  · intro v σg k hins
    exact insert_then_at hins

/-- Witness for C2: insert 100 (handle `(0, 0)`), erase it (slot 0 moves to
generation 1), run 19 further insertions, an erase and a final insertion —
which reuses slot 0 — and check the stale handle still misses. -/
theorem stale_handle_never_resolves_witness :
    atKey (stateAfter (c2PreOps ++ c2ReuseOps)) (0, 0) = AtResult.notFound ∧
    atKey ((insertOp (stateAfter (c2PreOps ++ c2ReuseOps)) 7).getD
        (emptySM, (0, 0))).1
      ((insertOp (stateAfter (c2PreOps ++ c2ReuseOps)) 7).getD
        (emptySM, (0, 0))).2 = AtResult.found 7 :=
  ⟨(stale_handle_never_resolves c2ReuseOps (stateAfter c2PreOps)
      (stateAfter (c2PreOps ++ c2ReuseOps)) 0 0 1
      (by decide) (by decide) (by decide)).1,
   (stale_handle_never_resolves c2ReuseOps (stateAfter c2PreOps)
      (stateAfter (c2PreOps ++ c2ReuseOps)) 0 0 1
      (by decide) (by decide) (by decide)).2 7 _ _ (by decide)⟩

/-- Witness for C3: insert A=10, B=11, C=12 (handles `(0,0)`, `(1,0)`,
`(2,0)`), erase B's handle: A and C still resolve to their values, B's
handle reports not-found, and size is 2. -/
theorem erase_preserves_other_live_handles_witness :
    atKey ((eraseKey c3Base (1, 0)).getD (emptySM, 0)).1 (0, 0)
        = AtResult.found 10 ∧
    atKey ((eraseKey c3Base (1, 0)).getD (emptySM, 0)).1 (2, 0)
        = AtResult.found 12 ∧
    atKey ((eraseKey c3Base (1, 0)).getD (emptySM, 0)).1 (1, 0)
        = AtResult.notFound ∧
    sizeOp ((eraseKey c3Base (1, 0)).getD (emptySM, 0)).1 = 2 :=
  ⟨erase_preserves_other_live_handles c3Base _ 1 1 0 0 0 10
      (by decide) (by decide) ⟨1, by decide⟩ ⟨0, by decide⟩
      (by decide) (by decide) (by decide),
   erase_preserves_other_live_handles c3Base _ 1 1 0 2 0 12
      (by decide) (by decide) ⟨1, by decide⟩ ⟨2, by decide⟩
      (by decide) (by decide) (by decide),
   by decide, by decide⟩


theorem all_updAt {α : Type} (l : List α) (i : Nat) (f : α → α)
    (p : α → Bool) (hp : ∀ x, p x = true → p (f x) = true)
    (hl : l.all p = true) : (updAt l i f).all p = true := by
  induction l generalizing i with
  | nil => exact hl
  | cons a t ih =>
    rw [List.all_cons, Bool.and_eq_true] at hl
    cases i with
    | zero =>
      rw [updAt, List.all_cons, Bool.and_eq_true]
      exact ⟨hp a hl.1, hl.2⟩
    | succ j =>
      rw [updAt, List.all_cons, Bool.and_eq_true]
      exact ⟨hl.1, ih j hl.2⟩

/-- C8: a growth event preserves every live handle: if `at` resolves the
key `(s, g)` to the value `v` before `grow`, it still resolves it to `v`
afterwards.  `grow`/`grow_slots` only append fresh slots, modify the last
appended slot's link field, and reserve capacity — existing slots and the
dense store are untouched. -/
theorem handles_survive_growth (σ σ' : SlotMap) (s g v : Nat)
    (hg : grow σ = some σ') (hat : atKey σ (s, g) = .found v) :
    atKey σ' (s, g) = .found v := by
  rw [atKey_found_iff] at hat ⊢
  obtain ⟨sl, hsl, hgen, hdat⟩ := hat
  obtain ⟨hd, _, ext, hslots, hlt⟩ := grow_some hg
  refine ⟨sl, ?_, hgen, by rw [hd]; exact hdat⟩
  rw [hslots]
  have hs_lt : s < σ.slots.length := get?_some_lt hsl
  have hne : s ≠ (σ.slots ++ ext).length - 1 := by omega
  rw [get?_updAt_ne _ _ _ _ hne, get?_append_left _ _ _ hs_lt]
  exact hsl

/-- Witness for C8: the growth event inside the 20th insertion of the
21-insertion scenario (the dense store holds 20 values, the slot table is
about to double from 20 to 40 slots): the first and the last pre-growth
handles still resolve, and the slot table doubled. -/
theorem handles_survive_growth_witness :
    atKey ((grow c8Mid).getD emptySM) (0, 0) = AtResult.found 0 ∧
    atKey ((grow c8Mid).getD emptySM) (18, 0) = AtResult.found 18 ∧
    ((grow c8Mid).getD emptySM).slots.length = 40 :=
  ⟨handles_survive_growth c8Mid _ 0 0 0 (by decide) (by decide),
   handles_survive_growth c8Mid _ 18 0 18 (by decide) (by decide),
   by decide⟩

/-- C10 (amended): after `clear()` the container is empty and every slot of
the rebuilt slot table has generation 0 (the generation-reset policy), so
any pre-clear handle with generation 0 and an in-range index passes the
generation check `key_valid`; however, for any container that had slot
capacity before the clear, `clear()` leaves `m_free_head` equal to the new
slot-table size, so the insertion that the ABA scenario would need performs
an out-of-bounds read instead of producing a value. -/
theorem clear_resets_generations_but_breaks_insert
    (σ σ2 : SlotMap) (h : clearOp σ = some σ2)
    (hcap : σ.slotsCap ≠ 0) (hdcap : 2 ≤ σ.dataCap) :
    sizeOp σ2 = 0 ∧ allGensZeroB σ2 = true ∧
    (∀ i, i < σ2.slots.length → keyValid σ2 (i, 0) = some true) ∧
    σ2.freeHead = σ2.slots.length ∧
    ∀ w, insertOp σ2 w = none := by
  simp only [clearOp, growSlots, growthRate, initialAlloc] at h
  rw [if_pos hcap] at h
  split at h
  · cases h
  · next hl =>
    have hσ2 := (Option.some.inj h).symm
    have hd2 : σ2.data = [] := by rw [hσ2]
    have hcap2 : σ2.dataCap = σ.dataCap := by rw [hσ2]
    have hgens : allGensZeroB σ2 = true := by
      rw [hσ2]
      unfold allGensZeroB
      dsimp only
      apply all_updAt
      · intro x hx
        exact hx
      · rw [List.all_eq_true]
        intro sl hmem
        rw [List.nil_append, List.mem_map] at hmem
        obtain ⟨i, _, hi⟩ := hmem
        rw [← hi]
        rfl
    have hfh : σ2.freeHead = σ2.slots.length := by
      rw [hσ2]
      dsimp only
      rw [updAt_length]
      simp only [List.nil_append, List.length_map, List.length_range']
      omega
    refine ⟨by rw [sizeOp, hd2]; rfl, hgens, ?_, hfh, ?_⟩
    · intro i hi
      obtain ⟨sl, hsl⟩ := lt_get?_some hi
      have hmem := List.get?_mem hsl
      unfold allGensZeroB at hgens
      have hz := List.all_eq_true.mp hgens sl hmem
      have hz' : sl.gen = 0 := of_decide_eq_true hz
      unfold keyValid
      rw [show ((i, 0) : Nat × Nat).1 = i from rfl, hsl]
      dsimp only
      rw [hz']
      rfl
    · intro w
      have hpre : ¬(σ2.data.length = σ2.dataCap) := by
        rw [hd2, hcap2]
        intro hc
        simp at hc
        omega
      have hpop : popHead { σ2 with data := σ2.data ++ [w] } = none := by
        simp only [popHead]
        rw [if_neg (by
          try dsimp only
          rw [hd2, hcap2]
          intro hc
          simp at hc
          omega)]
        dsimp only
        have hg0 : σ2.slots.get? σ2.freeHead = none := by
          rw [List.get?_eq_none, hfh]
        rw [hg0]
      simp only [insertOp, preInsert]
      rw [if_neg hpre]
      dsimp only
      simp only [finishInserting]
      rw [hpop]

/-- Witness for C10's amended theorem: one value inserted, then cleared. -/
theorem clear_resets_generations_but_breaks_insert_witness :
    sizeOp c10Cleared = 0 ∧ allGensZeroB c10Cleared = true ∧
    keyValid c10Cleared (0, 0) = some true ∧
    c10Cleared.freeHead = c10Cleared.slots.length ∧
    insertOp c10Cleared 7 = none :=
  ⟨(clear_resets_generations_but_breaks_insert c10Inserted.1 c10Cleared
      (by decide) (by decide) (by decide)).1,
   (clear_resets_generations_but_breaks_insert c10Inserted.1 c10Cleared
      (by decide) (by decide) (by decide)).2.1,
   (clear_resets_generations_but_breaks_insert c10Inserted.1 c10Cleared
      (by decide) (by decide) (by decide)).2.2.1 0 (by decide),
   (clear_resets_generations_but_breaks_insert c10Inserted.1 c10Cleared
      (by decide) (by decide) (by decide)).2.2.2.1,
   (clear_resets_generations_but_breaks_insert c10Inserted.1 c10Cleared
      (by decide) (by decide) (by decide)).2.2.2.2 7⟩

/-- Counterexample to C10 as stated: the concrete ABA scenario cannot be
completed, because the insertion needed after `clear()` hits the
out-of-bounds free-list head: with one value inserted before the clear, the
post-clear insertion returns no state at all (undefined behaviour) rather
than an "unrelated value inserted after clear". -/
theorem post_clear_insert_reads_out_of_bounds :
    insertOp emptySM 5 = some c10Inserted ∧
    clearOp c10Inserted.1 = some c10Cleared ∧
    c10Cleared.freeHead = c10Cleared.slots.length ∧
    insertOp c10Cleared 7 = none := by
  refine ⟨by decide, by decide, by decide, by decide⟩

/-- Counterexample to C3 as stated (over every reachable state): in the
reachable state after `c5Ops` — where the double allocation of slot 39 has
already broken reverse consistency — the handle `(39, 0)` is live (`at`
resolves it to 39 and slot 39 is occupied), the never-issued key `(0, 1)`
passes `key_valid` (slot 0 is free with generation 1 and payload 0), and
erasing through that key removes exactly one element (the call returns 1,
the size drops from 39 to 38) while `push_tail(m_erase_helper[0] = 39)`
increments slot 39's generation: the other live handle `(39, 0)` flips from
`found 39` to not-found. -/
theorem single_erase_breaks_other_live_handle :
    exec c5Ops emptySM = some (stateAfter c5Ops) ∧
    atKey (stateAfter c5Ops) (39, 0) = AtResult.found 39 ∧
    occupiedB (stateAfter c5Ops) 39 = true ∧
    keyValid (stateAfter c5Ops) (0, 1) = some true ∧
    eraseKey (stateAfter c5Ops) (0, 1)
      = some (((eraseKey (stateAfter c5Ops) (0, 1)).getD (emptySM, 0)).1, 1) ∧
    sizeOp ((eraseKey (stateAfter c5Ops) (0, 1)).getD (emptySM, 0)).1 = 38 ∧
    atKey ((eraseKey (stateAfter c5Ops) (0, 1)).getD (emptySM, 0)).1 (39, 0)
      = AtResult.notFound := by
  refine ⟨by decide, by decide, by decide, by decide, by decide, by decide,
    by decide⟩
